import Mathlib

/-
Verification of the alignment-and-chunking engine of
`src/dataset/dataset_creation.py` (music-transcription dataset creation).

Shallow embedding conventions:
* 2-D numpy / torch arrays are modelled by `Arr2 α`: explicit row and
  column counts plus a total entry function (entries outside the bounds
  are junk and never constrained).
* Exact rational arithmetic (`ℚ`) stands in for floating point; the one
  float-specific behaviour the claims mention — division by zero yielding
  a non-finite value — is modelled by `fdiv`, which returns `none`
  exactly when IEEE division would return a non-finite result here.
* Python exceptions are modelled by the `PyError` type; a function that
  can raise returns `Except PyError _`, and an uncaught exception in the
  driver loop aborts the remainder of the loop, as in Python.
* Python's `round` (round-half-to-even on these nonnegative inputs) is
  modelled by `pyRound`; `range(start, stop, step)` for a nonnegative
  step is modelled by `pyRangeStep` (fuel-based recursion; the fuel
  `stop - start` dominates the iteration count since each iteration
  advances `start` by `step ≥ 1`).
-/

/-- A 2-D array: `rows × cols`, entries given by a total function.
Models the numpy arrays of `dataset_creation.py`. -/
@[ext]
structure Arr2 (α : Type) where
  rows : ℕ
  cols : ℕ
  entry : ℕ → ℕ → α

/-- Numpy column slice `a[:, s:e]` for nonnegative bounds: the effective
start is `min s a.cols`, the effective stop is `min e a.cols`, the width
is their (clamped) difference, and slice column `j` is source column
`min s a.cols + j`. -/
def sliceCols {α : Type} (a : Arr2 α) (s e : ℕ) : Arr2 α where
  rows := a.rows
  cols := min e a.cols - min s a.cols
  entry := fun i j => a.entry i (min s a.cols + j)

/-- Models `np.concatenate([a, np.zeros(shape=(1, a.shape[1]))], axis=0)`
in `extract_chunk`: one all-zero row appended below `a`. -/
def appendZeroRow (a : Arr2 ℚ) : Arr2 ℚ where
  rows := a.rows + 1
  cols := a.cols
  entry := fun i j => if i = a.rows then 0 else a.entry i j

/-- Models `np.concatenate([a, eos_token], axis=1)` in `extract_chunk`,
where `eos_token` is the column `[0, ..., 0, 1]` of length `a.rows`
(built as `[0 for _ in range(a.rows - 1)] + [1]`). -/
def appendEosCol (a : Arr2 ℚ) : Arr2 ℚ where
  rows := a.rows
  cols := a.cols + 1
  entry := fun i j => if j = a.cols then (if i = a.rows - 1 then 1 else 0) else a.entry i j

/-- Python's builtin `round` on the (nonnegative, exactly represented)
values appearing in `extract_chunk`: round half to even, written via the
floor, the fractional part, and the parity of the floor. -/
def pyRound (q : ℚ) : ℤ :=
  if q - ⌊q⌋ < 1/2 then ⌊q⌋
  else if 1/2 < q - ⌊q⌋ then ⌊q⌋ + 1
  else if ⌊q⌋ % 2 = 0 then ⌊q⌋ else ⌊q⌋ + 1

/-- The symbolic index `round(idx * (pr_frames / song_len))` computed in
`extract_chunk` (`pr_to_sg = pr_frames / song_len`, then
`round(start * pr_to_sg)` / `round(stop * pr_to_sg)`).  The result is
nonnegative, so `Int.toNat` is exact. -/
def pr_round_index (idx pr_frames song_len : ℕ) : ℕ :=
  (pyRound ((idx : ℚ) * ((pr_frames : ℚ) / (song_len : ℚ)))).toNat

/-- The Python exception classes relevant to this script.
`invalidInputError` is the error class the specification asks for; it is
declared so that its absence from the code's behaviour is statable. -/
inductive PyError where
  | zeroDivisionError
  | valueError
  | ioError
  | invalidInputError
deriving DecidableEq

/-- The chunk aligner `extract_chunk(piano_roll, norm_db, start, stop,
song_len)`.  `pr_frames / song_len` raises `ZeroDivisionError` in Python
when `song_len == 0`; otherwise the function slices the piano roll at
the rounded symbolic window, appends a zero row and the eos column, and
slices the spectrogram at `[start, stop)` directly. -/
def extract_chunk (piano_roll norm_db : Arr2 ℚ) (start stop song_len : ℕ) :
    Except PyError (Arr2 ℚ × Arr2 ℚ) :=
  if song_len = 0 then .error .zeroDivisionError
  else
    let start_pr := pr_round_index start piano_roll.cols song_len
    let end_pr := pr_round_index stop piano_roll.cols song_len
    let pr_chunk := appendEosCol (appendZeroRow (sliceCols piano_roll start_pr end_pr))
    let sg_chunk := sliceCols norm_db start stop
    .ok (pr_chunk, sg_chunk)

/-- The symbolic chunk `extract_chunk` builds for a window (named for use
in statements about the driver's output). -/
def pr_chunk_of (pr : Arr2 ℚ) (start stop song_len : ℕ) : Arr2 ℚ :=
  appendEosCol (appendZeroRow (sliceCols pr
    (pr_round_index start pr.cols song_len)
    (pr_round_index stop pr.cols song_len)))

/-- The artifact name `f"{start}-{stop}-{stem}-{kind}.npy"` used by
`create_tensor` when calling `save_array` (numpy appends `.npy`). -/
def chunkFileName (start stop : ℕ) (stem kind : String) : String :=
  toString start ++ "-" ++ toString stop ++ "-" ++ stem ++ "-" ++ kind ++ ".npy"

/-- One artifact persisted by `save_array`: its path and its contents. -/
structure SavedFile where
  name : String
  arr : Arr2 ℚ

/-- The persistence adapter `save_array(arr, save_fp)` (`np.save`).  The
environment oracle `writeOk` says which paths are writable; an
unwritable path raises an `IOError`-class exception. -/
def save_array (writeOk : String → Bool) (arr : Arr2 ℚ) (save_fp : String) :
    Except PyError SavedFile :=
  if writeOk save_fp then .ok ⟨save_fp, arr⟩ else .error .ioError

/-- The body of the `for m_sec in range(...)` loop of `create_tensor`,
run over an explicit list of window starts.  Each window calls
`extract_chunk`, then saves the spectrogram chunk and the piano chunk
(in that order).  An uncaught exception aborts the remaining iterations,
as in Python; the first component collects the files actually written,
the second is the escaping exception, if any. -/
def processWindows (piano_roll norm_db : Arr2 ℚ) (song_len chunk_len : ℕ)
    (stem : String) (writeOk : String → Bool) :
    List ℕ → List SavedFile × Option PyError
  | [] => ([], none)
  | m_sec :: rest =>
    match extract_chunk piano_roll norm_db m_sec (m_sec + chunk_len) song_len with
    | .error e => ([], some e)
    | .ok (pr_chunk, sg_chunk) =>
      match save_array writeOk sg_chunk (chunkFileName m_sec (m_sec + chunk_len) stem "spec") with
      | .error e => ([], some e)
      | .ok f1 =>
        match save_array writeOk pr_chunk (chunkFileName m_sec (m_sec + chunk_len) stem "piano") with
        | .error e => ([f1], some e)
        | .ok f2 =>
          let r := processWindows piano_roll norm_db song_len chunk_len stem writeOk rest
          (f1 :: f2 :: r.1, r.2)

/-- Fuel-based evaluator for Python's `range(start, stop, step)` with a
nonnegative `step`, emitting `start, start + step, ...` while
`start < stop`.  Zero `step` yields `[]` here; `pyRangeStep` never calls
it that way (Python raises `ValueError` first, handled by the caller
model `create_tensor`). -/
def pyRangeAux : ℕ → ℕ → ℕ → ℕ → List ℕ
  | 0, _, _, _ => []
  | fuel + 1, start, stop, step =>
    if 0 < step ∧ start < stop then start :: pyRangeAux fuel (start + step) stop step
    else []

/-- Python's `range(start, stop, step)` as a list, for a positive `step`.
The fuel `stop - start` dominates the iteration count because each
iteration advances `start` by `step ≥ 1`. -/
def pyRangeStep (start stop step : ℕ) : List ℕ :=
  pyRangeAux (stop - start) start stop step

/-- The segment driver: the chunking loop of `create_tensor` after the
acoustic array `norm_db` and the piano roll are in hand.
`song_len = norm_db.shape[1]`; the loop is
`for m_sec in range(0, song_len, chunk_len)`.  Python's `range` raises
`ValueError` when the step is zero and yields nothing when the step is
negative (here: `Int.toNat` of a negative is `0`, making the range
empty). -/
def create_tensor (piano_roll norm_db : Arr2 ℚ) (chunk_len : ℤ) (stem : String)
    (writeOk : String → Bool) : List SavedFile × Option PyError :=
  let song_len := norm_db.cols
  if chunk_len = 0 then ([], some .valueError)
  else
    processWindows piano_roll norm_db song_len chunk_len.toNat stem writeOk
      (pyRangeStep 0 song_len chunk_len.toNat)

/-- IEEE-style division marker: `none` exactly when the divisor is zero,
i.e. exactly when the float division in `norm_sg` would produce a
non-finite value (`nan`/`inf`) on these inputs. -/
def fdiv (x y : ℚ) : Option ℚ :=
  if y = 0 then none else some (x / y)

/-- The in-bounds entries of an array, row-major, as numpy's reductions
see them. -/
def entriesList (a : Arr2 ℚ) : List ℚ :=
  (List.range a.rows).flatMap fun i => (List.range a.cols).map fun j => a.entry i j

/-- Numpy's `a.min()`: the least in-bounds entry (junk `0` on an empty
array, where numpy raises instead; the theorems below assume a nonempty
array whenever it matters). -/
def aminQ (a : Arr2 ℚ) : ℚ :=
  match entriesList a with
  | [] => 0
  | x :: xs => xs.foldl min x

/-- Numpy's `a.max()`: the greatest in-bounds entry (junk `0` on an
empty array). -/
def amaxQ (a : Arr2 ℚ) : ℚ :=
  match entriesList a with
  | [] => 0
  | x :: xs => xs.foldl max x

/-- The normalizer `norm_sg`:
`(spectrogram - spectrogram.min()) / (spectrogram.max() - spectrogram.min())`,
entrywise, with `fdiv` marking the non-finite outcome of a zero
denominator. -/
def norm_sg (spectrogram : Arr2 ℚ) : Arr2 (Option ℚ) where
  rows := spectrogram.rows
  cols := spectrogram.cols
  entry := fun i j =>
    fdiv (spectrogram.entry i j - aminQ spectrogram) (amaxQ spectrogram - aminQ spectrogram)

/-- Concrete piano roll used by witnesses: 2 channels, 20 symbolic
frames. -/
def wPr : Arr2 ℚ := ⟨2, 20, fun i j => (i + j : ℚ)⟩

/-- Concrete acoustic array with 95 time frames. -/
def wNdb : Arr2 ℚ := ⟨2, 95, fun i j => (i * j : ℚ)⟩

/-- Concrete acoustic array with 200 time frames. -/
def wNdb200 : Arr2 ℚ := ⟨2, 200, fun i j => (i + j : ℚ)⟩

/-- Write oracle that fails exactly on the first window's spectrogram
path. -/
def wFail : String → Bool := fun n => n != chunkFileName 0 100 "x" "spec"

/-- Concrete non-constant array. -/
def wNC : Arr2 ℚ := ⟨1, 2, fun _ j => if j = 0 then 0 else 2⟩

/-- Concrete constant array. -/
def wConst : Arr2 ℚ := ⟨1, 1, fun _ _ => 5⟩

/- ### Helper lemmas -/

/-- With a nonzero acoustic length, `extract_chunk` succeeds and returns
the eos-tagged piano slice and the directly sliced spectrogram. -/
lemma extract_chunk_ok (pr ndb : Arr2 ℚ) (start stop song_len : ℕ) (h : song_len ≠ 0) :
    extract_chunk pr ndb start stop song_len =
      .ok (pr_chunk_of pr start stop song_len, sliceCols ndb start stop) := by
  simp [extract_chunk, pr_chunk_of, h]

/-- Evaluating `pyRangeAux` with sufficient fuel: the window starts are
`a, a + L, ...`, in closed form over `List.range`. -/
lemma pyRangeAux_eq_map (L N : ℕ) (hL : 0 < L) :
    ∀ fuel a, N - a ≤ fuel →
      pyRangeAux fuel a N L = (List.range ((N - a + (L - 1)) / L)).map fun k => a + k * L := by
  intro fuel
  induction fuel with
  | zero =>
    intro a ha
    have heq : N - a + (L - 1) = L - 1 := by omega
    rw [pyRangeAux, heq, Nat.div_eq_of_lt (by omega)]
    simp
  | succ fuel ih =>
    intro a ha
    rw [pyRangeAux]
    by_cases hcond : a < N
    · rw [if_pos ⟨hL, hcond⟩, ih (a + L) (by omega)]
      have hstep : (N - a + (L - 1)) / L = (N - (a + L) + (L - 1)) / L + 1 := by
        have h1 : N - a + (L - 1) = (N - a - 1) + L := by omega
        rw [h1, Nat.add_div_right _ hL]
        congr 1
        rcases Nat.lt_or_ge (N - a) L with h | h
        · have h2 : N - (a + L) + (L - 1) = L - 1 := by omega
          rw [h2, Nat.div_eq_of_lt (by omega), Nat.div_eq_of_lt (by omega)]
        · congr 1
          omega
      rw [hstep, List.range_succ_eq_map]
      simp only [List.map_cons, List.map_map, Nat.zero_mul, Nat.add_zero]
      apply congrArg₂ List.cons rfl
      symm
      apply List.map_congr_left
      intro k hk
      simp only [Function.comp_apply, Nat.succ_eq_add_one]
      ring
    · rw [if_neg (fun hc => hcond hc.2)]
      have heq : N - a + (L - 1) = L - 1 := by omega
      rw [heq, Nat.div_eq_of_lt (by omega)]
      simp

/-- Closed form of the segment driver's window starts:
`range(0, N, L)` is `[0, L, 2L, ...]`, of length `(N + L - 1) / L`. -/
lemma pyRangeStep_eq_map (N L : ℕ) (hL : 0 < L) :
    pyRangeStep 0 N L = (List.range ((N + L - 1) / L)).map fun k => k * L := by
  rw [pyRangeStep, pyRangeAux_eq_map L N hL (N - 0) 0 (by omega)]
  have heq : N - 0 + (L - 1) = N + L - 1 := by omega
  rw [heq]
  simp

/-- Every element emitted by `pyRangeAux` is at least the running start. -/
lemma pyRangeAux_mem_lb (L N : ℕ) :
    ∀ fuel a s, s ∈ pyRangeAux fuel a N L → a ≤ s := by
  intro fuel
  induction fuel with
  | zero =>
    intro a s hs
    rw [pyRangeAux] at hs
    simp at hs
  | succ fuel ih =>
    intro a s hs
    rw [pyRangeAux] at hs
    by_cases hcond : 0 < L ∧ a < N
    · rw [if_pos hcond] at hs
      rcases List.mem_cons.1 hs with h | h
      · omega
      · have := ih (a + L) s h
        omega
    · rw [if_neg hcond] at hs
      simp at hs

/-- Exact coverage: each time frame `t < N` lies in exactly one window
`[s, s + L)` of the tail of the range starting at `a ≤ t`. -/
lemma pyRangeAux_countP (L N t : ℕ) (hL : 0 < L) :
    ∀ fuel a, N - a ≤ fuel → a ≤ t → t < N →
      ((pyRangeAux fuel a N L).countP fun s => decide (s ≤ t ∧ t < s + L)) = 1 := by
  intro fuel
  induction fuel with
  | zero =>
    intro a h1 h2 h3
    omega
  | succ fuel ih =>
    intro a h1 h2 h3
    rw [pyRangeAux, if_pos ⟨hL, by omega⟩]
    by_cases hwin : t < a + L
    · rw [List.countP_cons_of_pos _ _ (by simp; omega)]
      have h0 : ((pyRangeAux fuel (a + L) N L).countP fun s => decide (s ≤ t ∧ t < s + L)) = 0 := by
        rw [List.countP_eq_zero]
        intro s hs
        have := pyRangeAux_mem_lb L N fuel (a + L) s hs
        simp
        omega
      rw [h0]
    · rw [List.countP_cons_of_neg _ _ (by simp; omega)]
      exact ih (a + L) (by omega) (by omega) h3

/-- The natural-number ceiling division `(N + L - 1) / L` agrees with the
rational ceiling `⌈N / L⌉`. -/
lemma natCeilDiv_eq_ceil (N L : ℕ) (hL : 0 < L) :
    (((N + L - 1) / L : ℕ) : ℤ) = ⌈(N : ℚ) / (L : ℚ)⌉ := by
  have hL' : (0 : ℚ) < L := by exact_mod_cast hL
  have hceil : (N + L - 1) / L = N ⌈/⌉ L := rfl
  have hle : N ≤ L * ((N + L - 1) / L) := by
    have h := le_smul_ceilDiv (b := N) hL
    rw [← hceil] at h
    simpa [smul_eq_mul] using h
  symm
  rw [Int.ceil_eq_iff]
  refine ⟨?_, ?_⟩
  · rcases Nat.eq_zero_or_pos ((N + L - 1) / L) with hq | hq
    · rw [hq]
      push_cast
      have h0 : (0 : ℚ) ≤ (N : ℚ) / L := by positivity
      linarith
    · have hlt : ((N + L - 1) / L - 1) * L < N := by
        by_contra hcon
        push_neg at hcon
        have h2 : N ⌈/⌉ L ≤ (N + L - 1) / L - 1 :=
          (ceilDiv_le_iff_le_smul hL).2 (by simpa [smul_eq_mul, Nat.mul_comm] using hcon)
        rw [← hceil] at h2
        omega
      rw [lt_div_iff₀ hL', Int.cast_natCast]
      have hc : (((N + L - 1) / L : ℕ) : ℚ) - 1 = (((N + L - 1) / L - 1 : ℕ) : ℚ) := by
        rw [Nat.cast_sub hq]
        push_cast
        ring
      rw [hc]
      exact_mod_cast hlt
  · rw [div_le_iff₀ hL', Int.cast_natCast]
    calc (N : ℚ) ≤ (L : ℚ) * (((N + L - 1) / L : ℕ) : ℚ) := by exact_mod_cast hle
      _ = (((N + L - 1) / L : ℕ) : ℚ) * L := by ring

/-- When every write succeeds, the driver loop persists, per window start,
the spectrogram slice then the eos-tagged piano slice, and no exception
escapes. -/
lemma processWindows_allOk (pr ndb : Arr2 ℚ) (song_len chunk_len : ℕ) (stem : String)
    (hsl : song_len ≠ 0) :
    ∀ l : List ℕ, processWindows pr ndb song_len chunk_len stem (fun _ => true) l
      = (l.flatMap fun m_sec =>
          [⟨chunkFileName m_sec (m_sec + chunk_len) stem "spec",
              sliceCols ndb m_sec (m_sec + chunk_len)⟩,
           ⟨chunkFileName m_sec (m_sec + chunk_len) stem "piano",
              pr_chunk_of pr m_sec (m_sec + chunk_len) song_len⟩], none) := by
  intro l
  induction l with
  | nil => simp [processWindows]
  | cons m rest ih =>
    rw [processWindows, extract_chunk_ok pr ndb m (m + chunk_len) song_len hsl]
    simp [save_array, ih]

/-- If the spectrogram write of the first listed window fails, the whole
remaining loop is aborted: nothing is persisted and the `IOError`
escapes, whatever windows were still pending. -/
lemma processWindows_specFail (pr ndb : Arr2 ℚ) (song_len chunk_len : ℕ) (stem : String)
    (writeOk : String → Bool) (m : ℕ) (rest : List ℕ) (hsl : song_len ≠ 0)
    (hfail : writeOk (chunkFileName m (m + chunk_len) stem "spec") = false) :
    processWindows pr ndb song_len chunk_len stem writeOk (m :: rest)
      = ([], some .ioError) := by
  rw [processWindows, extract_chunk_ok pr ndb m (m + chunk_len) song_len hsl]
  simp [save_array, hfail]

/-- A list binding two files per element has twice the length. -/
lemma flatMap_two_length {α : Type} (l : List ℕ) (f g : ℕ → α) :
    (l.flatMap fun m => [f m, g m]).length = 2 * l.length := by
  induction l with
  | nil => simp
  | cons m rest ih => simp [ih]; omega

/-- Folding `min` only lowers the accumulator. -/
lemma foldl_min_le_init : ∀ (xs : List ℚ) (init : ℚ), xs.foldl min init ≤ init := by
  intro xs
  induction xs with
  | nil => intro init; simp
  | cons y ys ih =>
    intro init
    calc (y :: ys).foldl min init = ys.foldl min (min init y) := rfl
      _ ≤ min init y := ih (min init y)
      _ ≤ init := min_le_left _ _

/-- Folding `min` is a lower bound on every list element. -/
lemma foldl_min_le_mem : ∀ (xs : List ℚ) (init x : ℚ), x ∈ xs → xs.foldl min init ≤ x := by
  intro xs
  induction xs with
  | nil => intro init x hx; simp at hx
  | cons y ys ih =>
    intro init x hx
    rcases List.mem_cons.1 hx with h | h
    · subst h
      calc (x :: ys).foldl min init = ys.foldl min (min init x) := rfl
        _ ≤ min init x := foldl_min_le_init _ _
        _ ≤ x := min_le_right _ _
    · exact ih (min init y) x h

/-- Folding `max` only raises the accumulator. -/
lemma init_le_foldl_max : ∀ (xs : List ℚ) (init : ℚ), init ≤ xs.foldl max init := by
  intro xs
  induction xs with
  | nil => intro init; simp
  | cons y ys ih =>
    intro init
    calc init ≤ max init y := le_max_left _ _
      _ ≤ ys.foldl max (max init y) := ih (max init y)
      _ = (y :: ys).foldl max init := rfl

/-- Folding `max` is an upper bound on every list element. -/
lemma mem_le_foldl_max : ∀ (xs : List ℚ) (init x : ℚ), x ∈ xs → x ≤ xs.foldl max init := by
  intro xs
  induction xs with
  | nil => intro init x hx; simp at hx
  | cons y ys ih =>
    intro init x hx
    rcases List.mem_cons.1 hx with h | h
    · subst h
      calc x ≤ max init x := le_max_right _ _
        _ ≤ ys.foldl max (max init x) := init_le_foldl_max _ _
        _ = (x :: ys).foldl max init := rfl
    · exact ih (max init y) x h

/-- Every in-bounds entry occurs in the entries list. -/
lemma entry_mem_entriesList (a : Arr2 ℚ) (i j : ℕ) (hi : i < a.rows) (hj : j < a.cols) :
    a.entry i j ∈ entriesList a := by
  simp only [entriesList, List.mem_flatMap, List.mem_map, List.mem_range]
  exact ⟨i, hi, j, hj, rfl⟩

/-- The global minimum is a lower bound on every in-bounds entry. -/
lemma aminQ_le (a : Arr2 ℚ) (i j : ℕ) (hi : i < a.rows) (hj : j < a.cols) :
    aminQ a ≤ a.entry i j := by
  have hmem := entry_mem_entriesList a i j hi hj
  rcases hlist : entriesList a with _ | ⟨x, xs⟩
  · rw [hlist] at hmem
    simp at hmem
  · rw [hlist] at hmem
    rw [aminQ, hlist]
    rcases List.mem_cons.1 hmem with h | h
    · rw [← h]
      exact foldl_min_le_init _ _
    · exact foldl_min_le_mem _ _ _ h

/-- The global maximum is an upper bound on every in-bounds entry. -/
lemma le_amaxQ (a : Arr2 ℚ) (i j : ℕ) (hi : i < a.rows) (hj : j < a.cols) :
    a.entry i j ≤ amaxQ a := by
  have hmem := entry_mem_entriesList a i j hi hj
  rcases hlist : entriesList a with _ | ⟨x, xs⟩
  · rw [hlist] at hmem
    simp at hmem
  · rw [hlist] at hmem
    rw [amaxQ, hlist]
    rcases List.mem_cons.1 hmem with h | h
    · rw [← h]
      exact init_le_foldl_max _ _
    · exact mem_le_foldl_max _ _ _ h

/-- On a nonempty array the minimum is at most the maximum. -/
lemma aminQ_le_amaxQ (a : Arr2 ℚ) (hr : 0 < a.rows) (hc : 0 < a.cols) :
    aminQ a ≤ amaxQ a :=
  le_trans (aminQ_le a 0 0 hr hc) (le_amaxQ a 0 0 hr hc)

/-- The symbolic chunk has one row more than the grid. -/
lemma pr_chunk_of_rows (pr : Arr2 ℚ) (s e n : ℕ) :
    (pr_chunk_of pr s e n).rows = pr.rows + 1 := rfl

/-- The symbolic chunk is the (clamped) slice width plus the terminal
column. -/
lemma pr_chunk_of_cols (pr : Arr2 ℚ) (s e n : ℕ) :
    (pr_chunk_of pr s e n).cols
      = (min (pr_round_index e pr.cols n) pr.cols
          - min (pr_round_index s pr.cols n) pr.cols) + 1 := rfl

/-- The last column of the symbolic chunk is the terminal marker: zero in
every original channel, one in the appended channel. -/
lemma pr_chunk_of_last_col (pr : Arr2 ℚ) (s e n i : ℕ) :
    (pr_chunk_of pr s e n).entry i ((pr_chunk_of pr s e n).cols - 1)
      = if i = pr.rows then 1 else 0 := by
  simp [pr_chunk_of, appendEosCol, appendZeroRow, sliceCols]

/-- The appended last row of the symbolic chunk is zero at every column
before the terminal one. -/
lemma pr_chunk_of_last_row (pr : Arr2 ℚ) (s e n j : ℕ)
    (hj : j < (pr_chunk_of pr s e n).cols - 1) :
    (pr_chunk_of pr s e n).entry pr.rows j = 0 := by
  simp only [pr_chunk_of, appendEosCol, appendZeroRow, sliceCols,
    Nat.add_sub_cancel] at hj ⊢
  rw [if_neg (by omega)]
  simp

/- ### Claim theorems -/

/-- C1: for an acoustic feature array with `N` time frames and a positive
chunk length `L`, the segment driver (`create_tensor`) iterates the
windows `(0, L), (L, 2L), ...` until the start reaches or exceeds `N`
(every start is `k * L` and is `< N`), the number of windows is
`⌈N / L⌉ = (N + L - 1) / L`, each time frame `t < N` is covered by
exactly one window `[start, start + L)` (clipping to `N` is immaterial
since `t < N`), and the driver persists two files per window. -/
theorem C1_segment_driver_windows (N L : ℕ) (hL : 0 < L) :
    pyRangeStep 0 N L = (List.range ((N + L - 1) / L)).map (fun k => k * L) ∧
    (pyRangeStep 0 N L).length = (N + L - 1) / L ∧
    (((N + L - 1) / L : ℕ) : ℤ) = ⌈(N : ℚ) / (L : ℚ)⌉ ∧
    (∀ s ∈ pyRangeStep 0 N L, s < N) ∧
    (∀ t, t < N → ((pyRangeStep 0 N L).countP fun s => decide (s ≤ t ∧ t < s + L)) = 1) ∧
    (∀ (pr ndb : Arr2 ℚ) (stem : String), ndb.cols = N →
      (create_tensor pr ndb (L : ℤ) stem (fun _ => true)).1.length
        = 2 * ((N + L - 1) / L)) := by
  refine ⟨pyRangeStep_eq_map N L hL, ?_, natCeilDiv_eq_ceil N L hL, ?_, ?_, ?_⟩
  · rw [pyRangeStep_eq_map N L hL]
    simp
  · intro s hs
    rw [pyRangeStep_eq_map N L hL] at hs
    rcases List.mem_map.1 hs with ⟨k, hk, rfl⟩
    rw [List.mem_range] at hk
    have h2 : ((N + L - 1) / L) * L ≤ N + L - 1 := Nat.div_mul_le_self _ _
    have h1 : k * L + L ≤ ((N + L - 1) / L) * L := by
      calc k * L + L = (k + 1) * L := by ring
        _ ≤ ((N + L - 1) / L) * L := Nat.mul_le_mul_right L hk
    generalize hB : ((N + L - 1) / L) * L = B at h1 h2
    generalize hC : k * L = C at h1 ⊢
    omega
  · intro t ht
    rw [pyRangeStep]
    exact pyRangeAux_countP L N t hL (N - 0) 0 (le_refl _) (Nat.zero_le t) ht
  · intro pr ndb stem hN
    have hLZ : (L : ℤ) ≠ 0 := by exact_mod_cast hL.ne'
    simp only [create_tensor, if_neg hLZ]
    have htn : (L : ℤ).toNat = L := Int.toNat_natCast L
    rw [htn, hN]
    rcases Nat.eq_zero_or_pos N with h0 | h0
    · subst h0
      simp [pyRangeStep, pyRangeAux, processWindows, Nat.div_eq_of_lt (by omega : L - 1 < L)]
    · rw [processWindows_allOk pr ndb N L stem (by omega) _]
      rw [flatMap_two_length]
      rw [pyRangeStep_eq_map N L hL]
      simp

/-- Witness for C1 at `N = 7`, `L = 3`: three windows `0, 3, 6`. -/
theorem C1_segment_driver_windows_witness :
    0 < 3 ∧
    (pyRangeStep 0 7 3 = (List.range ((7 + 3 - 1) / 3)).map (fun k => k * 3) ∧
    (pyRangeStep 0 7 3).length = (7 + 3 - 1) / 3 ∧
    (((7 + 3 - 1) / 3 : ℕ) : ℤ) = ⌈(7 : ℚ) / (3 : ℚ)⌉ ∧
    (∀ s ∈ pyRangeStep 0 7 3, s < 7) ∧
    (∀ t, t < 7 → ((pyRangeStep 0 7 3).countP fun s => decide (s ≤ t ∧ t < s + 3)) = 1) ∧
    (∀ (pr ndb : Arr2 ℚ) (stem : String), ndb.cols = 7 →
      (create_tensor pr ndb (3 : ℤ) stem (fun _ => true)).1.length
        = 2 * ((7 + 3 - 1) / 3))) :=
  ⟨by decide, C1_segment_driver_windows 7 3 (by decide)⟩

/-- C2: every symbolic chunk returned by `extract_chunk` has shape
`[C + 1, stop_sym - start_sym + 1]` (slice width clamped to the grid,
so truncated when `stop_sym` exceeds `T_symbolic`), its last column is
all zeros except a `1` in the last (appended) row, and the appended row
is zero at every other column of the chunk; this holds for every window,
not only the last one of a recording. -/
theorem C2_terminal_marker (pr ndb : Arr2 ℚ) (start stop song_len : ℕ)
    (hsl : 0 < song_len) (pr_chunk sg_chunk : Arr2 ℚ)
    (hres : extract_chunk pr ndb start stop song_len = .ok (pr_chunk, sg_chunk)) :
    pr_chunk.rows = pr.rows + 1 ∧
    pr_chunk.cols = (min (pr_round_index stop pr.cols song_len) pr.cols
        - min (pr_round_index start pr.cols song_len) pr.cols) + 1 ∧
    (∀ i, i < pr_chunk.rows →
      pr_chunk.entry i (pr_chunk.cols - 1) = if i = pr.rows then 1 else 0) ∧
    (∀ j, j < pr_chunk.cols - 1 → pr_chunk.entry pr.rows j = 0) := by
  rw [extract_chunk_ok pr ndb start stop song_len (by omega)] at hres
  simp only [Except.ok.injEq, Prod.mk.injEq] at hres
  obtain ⟨h1, h2⟩ := hres
  subst h1
  refine ⟨pr_chunk_of_rows pr start stop song_len,
    pr_chunk_of_cols pr start stop song_len, ?_, ?_⟩
  · intro i hi
    exact pr_chunk_of_last_col pr start stop song_len i
  · intro j hj
    exact pr_chunk_of_last_row pr start stop song_len j hj

/-- Witness for C2 at the window `(0, 3)` with 5 acoustic frames. -/
theorem C2_terminal_marker_witness :
    0 < 5 ∧
    extract_chunk wPr wNdb 0 3 5 = .ok (pr_chunk_of wPr 0 3 5, sliceCols wNdb 0 3) ∧
    ((pr_chunk_of wPr 0 3 5).rows = wPr.rows + 1 ∧
     (pr_chunk_of wPr 0 3 5).cols = (min (pr_round_index 3 wPr.cols 5) wPr.cols
        - min (pr_round_index 0 wPr.cols 5) wPr.cols) + 1 ∧
     (∀ i, i < (pr_chunk_of wPr 0 3 5).rows →
       (pr_chunk_of wPr 0 3 5).entry i ((pr_chunk_of wPr 0 3 5).cols - 1)
         = if i = wPr.rows then 1 else 0) ∧
     (∀ j, j < (pr_chunk_of wPr 0 3 5).cols - 1 →
       (pr_chunk_of wPr 0 3 5).entry wPr.rows j = 0)) :=
  ⟨by decide, extract_chunk_ok wPr wNdb 0 3 5 (by decide),
   C2_terminal_marker wPr wNdb 0 3 5 (by decide) _ _
     (extract_chunk_ok wPr wNdb 0 3 5 (by decide))⟩

/-- A zero step makes the range evaluator yield nothing (used to model
Python's empty `range` for a negative step after `Int.toNat`). -/
lemma pyRangeAux_zero_step (N : ℕ) : ∀ fuel a, pyRangeAux fuel a N 0 = [] := by
  intro fuel a
  cases fuel with
  | zero => rfl
  | succ f => simp [pyRangeAux]

/-- C3 counterexample: the code raises no `InvalidInputError` anywhere.
At `T_acoustic = 0` the chunk aligner raises `ZeroDivisionError` (the
numeric fault of `pr_frames / song_len`); at chunk length `0` the driver
raises `ValueError` (from `range`); at a negative chunk length it raises
nothing and produces nothing. -/
theorem C3_invalid_input_error_counterexample :
    extract_chunk wPr wNdb 0 100 0 = .error .zeroDivisionError ∧
    extract_chunk wPr wNdb 0 100 0 ≠ .error .invalidInputError ∧
    create_tensor wPr wNdb 0 "x" (fun _ => true) = ([], some .valueError) ∧
    create_tensor wPr wNdb 0 "x" (fun _ => true) ≠ ([], some .invalidInputError) ∧
    create_tensor wPr wNdb (-5) "x" (fun _ => true) = ([], none) := by
  refine ⟨rfl, ?_, rfl, ?_, rfl⟩
  · intro h
    rw [show extract_chunk wPr wNdb 0 100 0 = .error .zeroDivisionError from rfl] at h
    simp at h
  · intro h
    rw [show create_tensor wPr wNdb 0 "x" (fun _ => true) = ([], some .valueError)
      from rfl] at h
    simp at h

/-- C3 amended: with `T_acoustic == 0` the chunk aligner fails with
`ZeroDivisionError` (the numeric fault propagates; it is not converted
to an `InvalidInputError`); the segment driver with chunk length `0`
fails with `ValueError` from `range`, and with a negative chunk length
it silently produces no windows and no error. -/
theorem C3_numeric_faults_amended (pr ndb : Arr2 ℚ) (start stop : ℕ) (stem : String)
    (c : ℤ) (hc : c < 0) :
    extract_chunk pr ndb start stop 0 = .error .zeroDivisionError ∧
    create_tensor pr ndb 0 stem (fun _ => true) = ([], some .valueError) ∧
    create_tensor pr ndb c stem (fun _ => true) = ([], none) := by
  refine ⟨by simp [extract_chunk], by simp [create_tensor], ?_⟩
  have h0 : c.toNat = 0 := Int.toNat_of_nonpos (le_of_lt hc)
  simp only [create_tensor, if_neg (by omega : ¬ c = 0), h0]
  rw [pyRangeStep, pyRangeAux_zero_step]
  simp [processWindows]

/-- Witness for the amended C3 at chunk length `-5` and window `(0, 100)`. -/
theorem C3_numeric_faults_amended_witness :
    (-5 : ℤ) < 0 ∧
    (extract_chunk wPr wNdb 0 100 0 = .error .zeroDivisionError ∧
     create_tensor wPr wNdb 0 "x" (fun _ => true) = ([], some .valueError) ∧
     create_tensor wPr wNdb (-5) "x" (fun _ => true) = ([], none)) :=
  ⟨by decide, C3_numeric_faults_amended wPr wNdb 0 100 "x" (-5) (by decide)⟩

/-- C4: the normalizer keeps the shape and computes
`(in - min) / (max - min)` entrywise; on a non-constant array every
in-bounds output is a finite value in `[0, 1]`, positions holding the
global minimum map to exactly `0` and positions holding the global
maximum map to exactly `1`. -/
theorem C4_normalizer_range (a : Arr2 ℚ) (hr : 0 < a.rows) (hc : 0 < a.cols)
    (hnc : aminQ a ≠ amaxQ a) :
    (norm_sg a).rows = a.rows ∧ (norm_sg a).cols = a.cols ∧
    (∀ i j, (norm_sg a).entry i j
        = fdiv (a.entry i j - aminQ a) (amaxQ a - aminQ a)) ∧
    (∀ i j, i < a.rows → j < a.cols →
      ∃ v, (norm_sg a).entry i j = some v ∧
        v = (a.entry i j - aminQ a) / (amaxQ a - aminQ a) ∧
        0 ≤ v ∧ v ≤ 1 ∧
        (a.entry i j = aminQ a → v = 0) ∧
        (a.entry i j = amaxQ a → v = 1)) := by
  have hlt : aminQ a < amaxQ a := lt_of_le_of_ne (aminQ_le_amaxQ a hr hc) hnc
  have hden : amaxQ a - aminQ a ≠ 0 := by
    intro h
    apply hnc
    linarith
  refine ⟨rfl, rfl, fun i j => rfl, ?_⟩
  intro i j hi hj
  refine ⟨(a.entry i j - aminQ a) / (amaxQ a - aminQ a), ?_, rfl, ?_, ?_, ?_, ?_⟩
  · simp [norm_sg, fdiv, hden]
  · apply div_nonneg
    · have := aminQ_le a i j hi hj
      linarith
    · linarith
  · rw [div_le_one (by linarith)]
    have := le_amaxQ a i j hi hj
    linarith
  · intro h
    rw [h]
    simp
  · intro h
    rw [h, div_self hden]

/-- Witness for C4 on the non-constant 1 × 2 array with entries 0 and 2. -/
theorem C4_normalizer_range_witness :
    0 < wNC.rows ∧ 0 < wNC.cols ∧ aminQ wNC ≠ amaxQ wNC ∧
    ((norm_sg wNC).rows = wNC.rows ∧ (norm_sg wNC).cols = wNC.cols ∧
    (∀ i j, (norm_sg wNC).entry i j
        = fdiv (wNC.entry i j - aminQ wNC) (amaxQ wNC - aminQ wNC)) ∧
    (∀ i j, i < wNC.rows → j < wNC.cols →
      ∃ v, (norm_sg wNC).entry i j = some v ∧
        v = (wNC.entry i j - aminQ wNC) / (amaxQ wNC - aminQ wNC) ∧
        0 ≤ v ∧ v ≤ 1 ∧
        (wNC.entry i j = aminQ wNC → v = 0) ∧
        (wNC.entry i j = amaxQ wNC → v = 1))) :=
  ⟨by decide, by decide, by decide,
   C4_normalizer_range wNC (by decide) (by decide) (by decide)⟩

/-- C5: `extract_chunk` maps the acoustic window to the symbolic window
via `start_sym = round(start * (T_symbolic / T_acoustic))` and
`stop_sym = round(stop * (T_symbolic / T_acoustic))`, both through the
one rounding function `pyRound` (round half to even, checked at the
half-integer boundaries 1/2, 3/2, 5/2); at `T_symbolic = 1000`,
`T_acoustic = 100`, window `(10, 20)`, the mapped symbolic window is
exactly `(100, 200)`. -/
theorem C5_alignment_ratio (pr ndb : Arr2 ℚ) (start stop song_len : ℕ)
    (hsl : 0 < song_len) :
    extract_chunk pr ndb start stop song_len =
      .ok (appendEosCol (appendZeroRow (sliceCols pr
            ((pyRound ((start : ℚ) * ((pr.cols : ℚ) / (song_len : ℚ)))).toNat)
            ((pyRound ((stop : ℚ) * ((pr.cols : ℚ) / (song_len : ℚ)))).toNat))),
          sliceCols ndb start stop) ∧
    pr_round_index 10 1000 100 = 100 ∧
    pr_round_index 20 1000 100 = 200 ∧
    pyRound (1/2) = 0 ∧ pyRound (3/2) = 2 ∧ pyRound (5/2) = 2 := by
  refine ⟨?_, ?_, ?_, by norm_num [pyRound], by norm_num [pyRound], by norm_num [pyRound]⟩
  · rw [extract_chunk_ok pr ndb start stop song_len (by omega)]
    rfl
  · have h : pyRound ((10 : ℚ) * ((1000 : ℚ) / (100 : ℚ))) = 100 := by norm_num [pyRound]
    simp [pr_round_index, h]
  · have h : pyRound ((20 : ℚ) * ((1000 : ℚ) / (100 : ℚ))) = 200 := by norm_num [pyRound]
    simp [pr_round_index, h]

/-- Witness for C5 at the window `(0, 3)` with 5 acoustic frames. -/
theorem C5_alignment_ratio_witness :
    0 < 5 ∧
    (extract_chunk wPr wNdb 0 3 5 =
      .ok (appendEosCol (appendZeroRow (sliceCols wPr
            ((pyRound ((0 : ℚ) * ((wPr.cols : ℚ) / (5 : ℚ)))).toNat)
            ((pyRound ((3 : ℚ) * ((wPr.cols : ℚ) / (5 : ℚ)))).toNat))),
          sliceCols wNdb 0 3) ∧
    pr_round_index 10 1000 100 = 100 ∧
    pr_round_index 20 1000 100 = 200 ∧
    pyRound (1/2) = 0 ∧ pyRound (3/2) = 2 ∧ pyRound (5/2) = 2) :=
  ⟨by decide, C5_alignment_ratio wPr wNdb 0 3 5 (by decide)⟩

/-- With 95 acoustic frames and chunk length 100 the driver produces
exactly one window and persists its two artifacts, named with the
nominal stop `100`. -/
lemma create_tensor_95 (pr ndb : Arr2 ℚ) (stem : String) (h95 : ndb.cols = 95) :
    create_tensor pr ndb 100 stem (fun _ => true)
      = ([⟨chunkFileName 0 100 stem "spec", sliceCols ndb 0 100⟩,
          ⟨chunkFileName 0 100 stem "piano", pr_chunk_of pr 0 100 95⟩], none) := by
  have htn : (100 : ℤ).toNat = 100 := rfl
  simp only [create_tensor, if_neg (by decide : ¬ (100 : ℤ) = 0), htn, h95]
  rw [show pyRangeStep 0 95 100 = [0] from by decide,
    processWindows_allOk pr ndb 95 100 stem (by omega) [0]]
  simp

/-- C6: an over-long stop truncates the slice to the available length
(`sliceCols` with `stop > cols` equals the slice clipped at `cols`), and
for `T_acoustic = 95`, `chunk_length = 100` exactly one window is
produced and persisted — two files, no exception — whose effective
acoustic extent is `(0, 95)`: the spectrogram slice has 95 columns
carrying the original columns `0..94`. -/
theorem C6_boundary_truncation (pr ndb : Arr2 ℚ) (stem : String) (h95 : ndb.cols = 95) :
    (∀ (a : Arr2 ℚ) (s e : ℕ), a.cols < e → sliceCols a s e = sliceCols a s a.cols) ∧
    pyRangeStep 0 ndb.cols 100 = [0] ∧
    (create_tensor pr ndb 100 stem (fun _ => true)).2 = none ∧
    ((create_tensor pr ndb 100 stem (fun _ => true)).1.map SavedFile.name)
        = [chunkFileName 0 100 stem "spec", chunkFileName 0 100 stem "piano"] ∧
    (∃ pr_chunk sg_chunk,
      extract_chunk pr ndb 0 100 ndb.cols = .ok (pr_chunk, sg_chunk) ∧
      sg_chunk.cols = 95 ∧
      ∀ i j, j < 95 → sg_chunk.entry i j = ndb.entry i j) := by
  have hmain := create_tensor_95 pr ndb stem h95
  refine ⟨?_, ?_, ?_, ?_, ?_⟩
  · intro a s e he
    have hmin : min e a.cols = a.cols := min_eq_right (le_of_lt he)
    simp [sliceCols, hmin]
  · rw [h95]
    decide
  · rw [hmain]
  · rw [hmain]
    simp
  · refine ⟨pr_chunk_of pr 0 100 ndb.cols, sliceCols ndb 0 100,
      extract_chunk_ok pr ndb 0 100 ndb.cols (by omega), ?_, ?_⟩
    · simp [sliceCols, h95]
    · intro i j hj
      simp [sliceCols]

/-- Witness for C6 on the concrete 95-frame acoustic array. -/
theorem C6_boundary_truncation_witness :
    wNdb.cols = 95 ∧
    ((∀ (a : Arr2 ℚ) (s e : ℕ), a.cols < e → sliceCols a s e = sliceCols a s a.cols) ∧
    pyRangeStep 0 wNdb.cols 100 = [0] ∧
    (create_tensor wPr wNdb 100 "x" (fun _ => true)).2 = none ∧
    ((create_tensor wPr wNdb 100 "x" (fun _ => true)).1.map SavedFile.name)
        = [chunkFileName 0 100 "x" "spec", chunkFileName 0 100 "x" "piano"] ∧
    (∃ pr_chunk sg_chunk,
      extract_chunk wPr wNdb 0 100 wNdb.cols = .ok (pr_chunk, sg_chunk) ∧
      sg_chunk.cols = 95 ∧
      ∀ i j, j < 95 → sg_chunk.entry i j = wNdb.entry i j)) :=
  ⟨by decide, C6_boundary_truncation wPr wNdb "x" (by decide)⟩

/-- C7 counterexample: with 200 acoustic frames and chunk length 100 the
driver has two windows and, when every write succeeds, persists four
files; but when the first window's spectrogram write fails, the
`IOError` escapes, nothing at all is persisted, and in particular the
second window's artifacts are never written — the remaining windows of
the recording are not processed, contrary to the claim. -/
theorem C7_fault_isolation_counterexample :
    pyRangeStep 0 200 100 = [0, 100] ∧
    (create_tensor wPr wNdb200 100 "x" (fun _ => true)).1.length = 4 ∧
    create_tensor wPr wNdb200 100 "x" wFail = ([], some .ioError) ∧
    chunkFileName 100 200 "x" "spec"
      ∉ (create_tensor wPr wNdb200 100 "x" wFail).1.map SavedFile.name := by
  have h3 : create_tensor wPr wNdb200 100 "x" wFail = ([], some .ioError) := rfl
  refine ⟨by decide, rfl, h3, ?_⟩
  rw [h3]
  simp

/-- C7 amended: an `IOError` while persisting a window is fatal for the
whole rest of the recording's loop, not only for that window: if the
spectrogram write of the first pending window fails, nothing is
persisted and no later window is processed, whatever windows remain. -/
theorem C7_fault_aborts_loop_amended (pr ndb : Arr2 ℚ) (song_len chunk_len : ℕ)
    (stem : String) (writeOk : String → Bool) (m : ℕ) (rest : List ℕ)
    (hsl : song_len ≠ 0)
    (hfail : writeOk (chunkFileName m (m + chunk_len) stem "spec") = false) :
    processWindows pr ndb song_len chunk_len stem writeOk (m :: rest)
      = ([], some .ioError) :=
  processWindows_specFail pr ndb song_len chunk_len stem writeOk m rest hsl hfail

/-- Witness for the amended C7: first window of two fails, the pending
window `100` is discarded. -/
theorem C7_fault_aborts_loop_amended_witness :
    (200 : ℕ) ≠ 0 ∧
    wFail (chunkFileName 0 (0 + 100) "x" "spec") = false ∧
    processWindows wPr wNdb200 200 100 "x" wFail ([0] ++ [100])
      = ([], some .ioError) :=
  ⟨by decide, by decide,
   C7_fault_aborts_loop_amended wPr wNdb200 200 100 "x" wFail 0 [100]
     (by decide) (by decide)⟩

/-- C8: on a constant input array (`max == min`) the normalizer performs
the unguarded division: every entry of the result is the non-finite
marker (the denominator is zero), and in particular the output is not
the all-zero special case. -/
theorem C8_degenerate_normalization (a : Arr2 ℚ) (hconst : amaxQ a = aminQ a) :
    (norm_sg a).rows = a.rows ∧ (norm_sg a).cols = a.cols ∧
    ∀ i j, (norm_sg a).entry i j = none ∧ (norm_sg a).entry i j ≠ some 0 := by
  have hden : amaxQ a - aminQ a = 0 := by
    rw [hconst]
    ring
  refine ⟨rfl, rfl, ?_⟩
  intro i j
  constructor
  · simp [norm_sg, fdiv, hden]
  · simp [norm_sg, fdiv, hden]

/-- Witness for C8 on the constant 1 × 1 array with entry 5. -/
theorem C8_degenerate_normalization_witness :
    amaxQ wConst = aminQ wConst ∧
    ((norm_sg wConst).rows = wConst.rows ∧ (norm_sg wConst).cols = wConst.cols ∧
    ∀ i j, (norm_sg wConst).entry i j = none ∧ (norm_sg wConst).entry i j ≠ some 0) :=
  ⟨by decide, C8_degenerate_normalization wConst (by decide)⟩

/-- C9: with every write succeeding, the driver persists, per window
start `m`, exactly two files — the acoustic slice under kind `spec` and
the symbolic chunk under kind `piano` — each named
`{start}-{stop}-{identifier}-{kind}.npy`; the file count is twice the
window count, and the name format is checked on concrete values. -/
theorem C9_artifact_naming (pr ndb : Arr2 ℚ) (L : ℕ) (hL : 0 < L) (stem : String) :
    create_tensor pr ndb (L : ℤ) stem (fun _ => true)
      = ((pyRangeStep 0 ndb.cols L).flatMap fun m_sec =>
          [⟨chunkFileName m_sec (m_sec + L) stem "spec",
              sliceCols ndb m_sec (m_sec + L)⟩,
           ⟨chunkFileName m_sec (m_sec + L) stem "piano",
              pr_chunk_of pr m_sec (m_sec + L) ndb.cols⟩],
         none) ∧
    (create_tensor pr ndb (L : ℤ) stem (fun _ => true)).1.length
      = 2 * (pyRangeStep 0 ndb.cols L).length ∧
    chunkFileName 3 7 "song" "spec" = "3-7-song-spec.npy" ∧
    chunkFileName 3 7 "song" "piano" = "3-7-song-piano.npy" := by
  have hLZ : (L : ℤ) ≠ 0 := by exact_mod_cast hL.ne'
  have htn : (L : ℤ).toNat = L := Int.toNat_natCast L
  have hmain : create_tensor pr ndb (L : ℤ) stem (fun _ => true)
      = ((pyRangeStep 0 ndb.cols L).flatMap fun m_sec =>
          [⟨chunkFileName m_sec (m_sec + L) stem "spec",
              sliceCols ndb m_sec (m_sec + L)⟩,
           ⟨chunkFileName m_sec (m_sec + L) stem "piano",
              pr_chunk_of pr m_sec (m_sec + L) ndb.cols⟩],
         none) := by
    simp only [create_tensor, if_neg hLZ, htn]
    rcases Nat.eq_zero_or_pos ndb.cols with h0 | h0
    · rw [h0]
      simp [pyRangeStep, pyRangeAux, processWindows]
    · exact processWindows_allOk pr ndb ndb.cols L stem (by omega) _
  refine ⟨hmain, ?_, by decide, by decide⟩
  rw [hmain]
  exact flatMap_two_length _ _ _

/-- Witness for C9 at chunk length 100 on the 95-frame acoustic array. -/
theorem C9_artifact_naming_witness :
    0 < 100 ∧
    (create_tensor wPr wNdb (100 : ℤ) "x" (fun _ => true)
      = ((pyRangeStep 0 wNdb.cols 100).flatMap fun m_sec =>
          [⟨chunkFileName m_sec (m_sec + 100) "x" "spec",
              sliceCols wNdb m_sec (m_sec + 100)⟩,
           ⟨chunkFileName m_sec (m_sec + 100) "x" "piano",
              pr_chunk_of wPr m_sec (m_sec + 100) wNdb.cols⟩],
         none) ∧
    (create_tensor wPr wNdb (100 : ℤ) "x" (fun _ => true)).1.length
      = 2 * (pyRangeStep 0 wNdb.cols 100).length ∧
    chunkFileName 3 7 "song" "spec" = "3-7-song-spec.npy" ∧
    chunkFileName 3 7 "song" "piano" = "3-7-song-piano.npy") :=
  ⟨by decide, C9_artifact_naming wPr wNdb 100 (by decide) "x"⟩

/-- C10: the persisted names embed the unclipped nominal stop
`start + chunk_length`: with 95 acoustic frames and chunk length 100,
both artifacts carry the window bounds `0-100` in their names even
though the persisted spectrogram slice holds only 95 frames; the name
built from the clipped stop would differ. -/
theorem C10_nominal_stop_in_names (pr ndb : Arr2 ℚ) (stem : String)
    (h95 : ndb.cols = 95) :
    ((create_tensor pr ndb 100 stem (fun _ => true)).1.map SavedFile.name)
      = [chunkFileName 0 (0 + 100) stem "spec", chunkFileName 0 (0 + 100) stem "piano"] ∧
    (∃ f ∈ (create_tensor pr ndb 100 stem (fun _ => true)).1,
      f.name = chunkFileName 0 100 stem "spec" ∧ f.arr.cols = 95) ∧
    chunkFileName 0 100 "song" "spec" = "0-100-song-spec.npy" ∧
    chunkFileName 0 95 "song" "spec" = "0-95-song-spec.npy" ∧
    chunkFileName 0 100 "song" "spec" ≠ chunkFileName 0 95 "song" "spec" := by
  have hmain := create_tensor_95 pr ndb stem h95
  refine ⟨?_, ?_, by decide, by decide, by decide⟩
  · rw [hmain]
    simp
  · refine ⟨⟨chunkFileName 0 100 stem "spec", sliceCols ndb 0 100⟩, ?_, rfl, ?_⟩
    · rw [hmain]
      simp
    · simp [sliceCols, h95]

/-- Witness for C10 on the concrete 95-frame acoustic array. -/
theorem C10_nominal_stop_in_names_witness :
    wNdb.cols = 95 ∧
    (((create_tensor wPr wNdb 100 "x" (fun _ => true)).1.map SavedFile.name)
      = [chunkFileName 0 (0 + 100) "x" "spec", chunkFileName 0 (0 + 100) "x" "piano"] ∧
    (∃ f ∈ (create_tensor wPr wNdb 100 "x" (fun _ => true)).1,
      f.name = chunkFileName 0 100 "x" "spec" ∧ f.arr.cols = 95) ∧
    chunkFileName 0 100 "song" "spec" = "0-100-song-spec.npy" ∧
    chunkFileName 0 95 "song" "spec" = "0-95-song-spec.npy" ∧
    chunkFileName 0 100 "song" "spec" ≠ chunkFileName 0 95 "song" "spec") :=
  ⟨by decide, C10_nominal_stop_in_names wPr wNdb "x" (by decide)⟩
